import Mathlib

/-!
Verification of the lead-scoring core of the DuPont Tedlar sales lead
generation system (`src/lead_scoring/lead_scorer.py` and
`src/data_enrichment/company_enricher.py`).

Modelling conventions (shallow embedding):
* Tables are lists of typed records; a blank / missing string value is
  modelled as `""`, a missing list value as `[]`, a missing numeric value
  as `Option.none` (pandas `NaN`).  Arithmetic on possibly-missing scores
  uses `Option ℚ`, where `none` propagates exactly as `NaN` does through
  pandas arithmetic, `max` (skipna), `median` (skipna) and `round`.
* Python float arithmetic is embedded as exact rational arithmetic (`ℚ`);
  `numpy`/pandas `.round(2)` and Python `round(x, 2)` are embedded as
  round-half-to-even at two decimals.
* Python's `str.lower` is embedded character-wise (`Char.toLower`), which
  agrees with Python on the ASCII strings handled here, and `kw in s` is
  embedded as contiguous-sublist containment on the character lists.
* The scorer is invoked (per `score_leads`'s contract) on enriched company
  frames, where the `industry`, `company_size`, `description`, `products`,
  `materials`, `target_markets` columns always exist; the dataframe-level
  "column absent" branches for those columns are therefore unreachable and
  a blank cell is modelled by the falsy value.  The two column-presence
  checks that are observable on documented inputs — `relevance_score` on
  the company frame and `decision_making_power` on the stakeholder frame —
  are modelled explicitly as table-level flags, mirroring
  `'relevance_score' not in scored_df.columns` and
  `'decision_making_power' not in scored_df.columns`.
-/

/-- Python `str.lower`, character-wise (ASCII-faithful). -/
def pyLower (s : String) : String := String.mk (s.toList.map Char.toLower)

/-- Python's substring test `pat in text` (contiguous substring). -/
def containsSub (text pat : String) : Bool := decide (pat.toList <:+: text.toList)

/-- Python `any(kw in text for kw in pats)`. -/
def containsAny (text : String) (pats : List String) : Bool :=
  pats.any (fun p => containsSub text p)

/-- Round-half-to-even to an integer (the rounding used by `numpy.round`
and Python 3 `round`). -/
def roundHalfEven (q : ℚ) : ℤ :=
  let f := Rat.floor q
  let r := q - (f : ℚ)
  if r < 1/2 then f
  else if 1/2 < r then f + 1
  else if f % 2 = 0 then f else f + 1

/-- `.round(2)`: round half to even at two decimal places. -/
def round2 (q : ℚ) : ℚ := (roundHalfEven (q * 100) : ℚ) / 100

/-- pandas `Series.max()` on a fully populated numeric column: `none` on an
empty column (pandas returns `NaN` there). -/
def maxQ : List ℚ → Option ℚ
  | [] => none
  | x :: xs =>
    match maxQ xs with
    | none => some x
    | some m => some (max x m)

/-- pandas `Series.max()` with `NaN` entries skipped (`skipna=True`). -/
def omax (l : List (Option ℚ)) : Option ℚ := maxQ (l.filterMap id)

/-- Stable insertion into an ascending-sorted list. -/
def insertAsc (x : ℚ) : List ℚ → List ℚ
  | [] => [x]
  | y :: ys => if x ≤ y then x :: y :: ys else y :: insertAsc x ys

/-- Ascending insertion sort. -/
def sortAsc : List ℚ → List ℚ
  | [] => []
  | x :: xs => insertAsc x (sortAsc xs)

/-- pandas `Series.median()` on a fully populated column: middle element of
the sorted values for odd length, mean of the two middle elements for even
length, `none` (`NaN`) for an empty column. -/
def pandasMedian (l : List ℚ) : Option ℚ :=
  if l = [] then none
  else if l.length % 2 = 1 then some ((sortAsc l).getD (l.length / 2) 0)
  else some (((sortAsc l).getD (l.length / 2 - 1) 0 + (sortAsc l).getD (l.length / 2) 0) / 2)

/-- An input company record (the enriched schema handed to the scorer;
see `enrich_companies`). -/
structure Company where
  name : String
  description : String
  website : String
  industry : String
  company_size : String
  employees : Option Int
  annual_revenue : Option ℚ
  products : List String
  materials : List String
  target_markets : List String
  relevance_score : Option ℚ
  deriving DecidableEq

/-- The company frame: rows plus the `relevance_score` column-presence flag
tested by `_score_companies` (`'relevance_score' not in scored_df.columns`). -/
structure CompanyTable where
  hasRelevance : Bool
  rows : List Company
  deriving DecidableEq

/-- An input stakeholder record. -/
structure Stakeholder where
  name : String
  title : String
  company : String
  email : String
  linkedin_url : String
  decision_making_power : Option ℚ
  deriving DecidableEq

/-- The stakeholder frame: rows plus the `decision_making_power`
column-presence flag tested by `_score_stakeholders`
(`'decision_making_power' not in scored_df.columns`). -/
structure StakeholderTable where
  hasDmp : Bool
  rows : List Stakeholder
  deriving DecidableEq

/-- Modelled from the spec: `SCORING_WEIGHTS` is imported by
`lead_scorer.py` from `src.config.config` but is not defined in
`src/src/config/config.py`; the spec describes it as "externally
configured weights that need not sum to 1" with keys `company_size`,
`industry_relevance`, `product_fit` and `decision_making_power`. -/
structure ScoringWeights where
  company_size : ℚ
  industry_relevance : ℚ
  product_fit : ℚ
  decision_making_power : ℚ
  deriving DecidableEq

/-- `LeadScorer._calculate_basic_relevance`. -/
def calcBasicRelevance (c : Company) : ℚ :=
  let s1 : ℚ :=
    if containsAny (pyLower c.industry)
        ["sign", "graphic", "print", "display", "advertising"]
    then 1/2 + 3/10 else 1/2
  let nMatches : ℕ :=
    (["sign", "graphic", "print", "display", "banner", "billboard",
      "exhibit", "vinyl", "pvc", "film"].filter
      (fun k => containsSub (pyLower c.description) k)).length
  min (s1 + min ((nMatches : ℚ) * (5/100)) (2/10)) 1

/-- `LeadScorer._calculate_size_score`. -/
def calcSizeScore (c : Company) : ℚ :=
  let size := pyLower c.company_size
  if size = "large" then 1
  else if size = "medium" then 7/10
  else if size = "small" then 4/10
  else if size = "micro" then 2/10
  else
    match c.employees with
    | some e =>
      if e ≥ 1000 then 1
      else if e ≥ 250 then 8/10
      else if e ≥ 50 then 6/10
      else if e ≥ 10 then 4/10
      else 2/10
    | none => 1/2

/-- `LeadScorer._calculate_industry_score` (the enriched frame always has
an `industry` column, so the column-absent 0.5 branch is unreachable). -/
def calcIndustryScore (c : Company) : ℚ :=
  let industry := pyLower c.industry
  if containsAny industry ["sign", "signage", "display"] then 1
  else if containsAny industry ["graphic", "print", "advertising"] then 8/10
  else if containsAny industry ["marketing", "media", "visual", "design", "exhibition"] then 6/10
  else if containsAny industry ["manufacturing", "production", "retail", "construction"] then 4/10
  else 2/10

/-- Product keywords of `_calculate_product_fit`. -/
def relevantProducts : List String :=
  ["sign", "banner", "display", "billboard", "graphic", "wrap", "exhibit"]

/-- Material keywords of `_calculate_product_fit`. -/
def relevantMaterials : List String :=
  ["vinyl", "pvc", "plastic", "film", "composite"]

/-- The products loop of `_calculate_product_fit`: +0.1 per matching
product, `break` as soon as the running score reaches 0.8. -/
def productLoop (score : ℚ) : List String → ℚ
  | [] => score
  | p :: ps =>
    if containsAny (pyLower p) relevantProducts then
      let s := score + 1/10
      if 8/10 ≤ s then s else productLoop s ps
    else productLoop score ps

/-- The materials loop of `_calculate_product_fit`: +0.1 per matching
material, `break` as soon as the running score reaches 1.0. -/
def materialLoop (score : ℚ) : List String → ℚ
  | [] => score
  | m :: ms =>
    if containsAny (pyLower m) relevantMaterials then
      let s := score + 1/10
      if 1 ≤ s then s else materialLoop s ms
    else materialLoop score ms

/-- `LeadScorer._calculate_product_fit` (looping over an empty `products`
or `materials` list is the same as the skipped falsy branch). -/
def calcProductFit (c : Company) : ℚ :=
  min (materialLoop (productLoop (1/2) c.products) c.materials) 1

/-- Executive-title keywords of `_calculate_decision_power_from_title`. -/
def execTitleKeys : List String :=
  ["ceo", "chief", "president", "owner", "founder", "managing director"]

/-- Director/VP-title keywords of `_calculate_decision_power_from_title`. -/
def directorTitleKeys : List String :=
  ["director", "vp", "vice president", "head"]

/-- Manager-title keywords of `_calculate_decision_power_from_title`. -/
def managerTitleKeys : List String :=
  ["manager", "lead", "senior", "principal"]

/-- `LeadScorer._calculate_decision_power_from_title`. -/
def calcDecisionPower (s : Stakeholder) : ℚ :=
  if s.title = "" then 1/2
  else
    let t := pyLower s.title
    if containsAny t execTitleKeys then 1
    else if containsAny t directorTitleKeys then 8/10
    else if containsAny t managerTitleKeys then 6/10
    else 4/10

/-- A row of the scored-company frame returned by `_score_companies`
(restricted to the columns carried into lead assembly). -/
structure ScoredCompany where
  name : String
  industry : String
  company_size : String
  products : List String
  materials : List String
  target_markets : List String
  relevance_score : Option ℚ
  size_score : ℚ
  industry_score : ℚ
  product_fit_score : ℚ
  company_score : ℚ
  deriving DecidableEq

/-- The per-row part of `_score_companies`: the three sub-scores and the
weighted composite, before batch normalization and rounding. -/
def preScoreCompany (w : ScoringWeights) (c : Company) : ScoredCompany :=
  let sz := calcSizeScore c
  let ind := calcIndustryScore c
  let fit := calcProductFit c
  { name := c.name, industry := c.industry, company_size := c.company_size,
    products := c.products, materials := c.materials,
    target_markets := c.target_markets, relevance_score := c.relevance_score,
    size_score := sz, industry_score := ind, product_fit_score := fit,
    company_score := sz * w.company_size + ind * w.industry_relevance
      + fit * w.product_fit }

/-- The `relevance_score` column guard of `_score_companies`. -/
def ensureRelevance (t : CompanyTable) : List Company :=
  if t.hasRelevance then t.rows
  else t.rows.map (fun c => { c with relevance_score := some (calcBasicRelevance c) })

/-- The batch-normalization statement of `_score_companies`: divide
`company_score` by its batch maximum when that maximum is positive
(`if max_score > 0`); an empty batch has a `NaN` maximum and is left as is. -/
def normalizeCompanyScores (pre : List ScoredCompany) : List ScoredCompany :=
  match maxQ (pre.map (·.company_score)) with
  | some m =>
    if 0 < m then pre.map (fun c => { c with company_score := c.company_score / m })
    else pre
  | none => pre

/-- `LeadScorer._score_companies`: ensure `relevance_score`, compute the
sub-scores and weighted composite, divide by the batch maximum when it is
positive, round to two decimals. -/
def scoreCompanies (w : ScoringWeights) (t : CompanyTable) : List ScoredCompany :=
  (normalizeCompanyScores ((ensureRelevance t).map (preScoreCompany w))).map
    (fun c => { c with company_score := round2 c.company_score })

/-- A row of the scored-stakeholder frame returned by `_score_stakeholders`. -/
structure ScoredStakeholder where
  name : String
  title : String
  company : String
  email : String
  linkedin_url : String
  decision_making_power : Option ℚ
  company_score : Option ℚ
  stakeholder_score : Option ℚ
  deriving DecidableEq

/-- The `dict(zip(companies_df['name'], companies_df['company_score']))`
lookup: for duplicate names the last row wins, a miss is `NaN`. -/
def lookupCompanyScore (cs : List ScoredCompany) (nm : String) : Option ℚ :=
  (cs.reverse.find? (fun c => c.name = nm)).map (·.company_score)

/-- The per-row `decision_making_power` column of `_score_stakeholders`:
derived from the title only when the whole column is absent. -/
def stakeholderDmp (hasDmp : Bool) (s : Stakeholder) : Option ℚ :=
  if hasDmp then s.decision_making_power else some (calcDecisionPower s)

/-- The company score attached to a stakeholder: `.map(company_scores)`
followed by `.fillna(median)`. -/
def assignedCompanyScore (cs : List ScoredCompany) (s : Stakeholder) : Option ℚ :=
  match lookupCompanyScore cs s.company with
  | some v => some v
  | none => pandasMedian (cs.map (·.company_score))

/-- The per-row body of `_score_stakeholders` before batch normalization:
`decision_making_power` (derived from the title only when the whole column
is absent), the joined company score, and the weighted blend; the blend is
`NaN` when either input is `NaN`. -/
def scoreStakeholderRow (w : ScoringWeights) (hasDmp : Bool)
    (cs : List ScoredCompany) (s : Stakeholder) : ScoredStakeholder :=
  let d := stakeholderDmp hasDmp s
  let csc := assignedCompanyScore cs s
  { name := s.name, title := s.title, company := s.company,
    email := s.email, linkedin_url := s.linkedin_url,
    decision_making_power := d, company_score := csc,
    stakeholder_score :=
      match d, csc with
      | some dv, some cv =>
        some (dv * w.decision_making_power + cv * (1 - w.decision_making_power))
      | _, _ => none }

/-- The batch-normalization statement of `_score_stakeholders`
(`NaN` scores are skipped by `max` and left `NaN` by the division). -/
def normalizeStakeholderScores (pre : List ScoredStakeholder) : List ScoredStakeholder :=
  match omax (pre.map (·.stakeholder_score)) with
  | some m =>
    if 0 < m then
      pre.map (fun s => { s with stakeholder_score := s.stakeholder_score.map (· / m) })
    else pre
  | none => pre

/-- `LeadScorer._score_stakeholders`: ensure `decision_making_power`, join
the company scores (median fallback), blend, divide by the batch maximum
when positive, round to two decimals.  The scored-company frame always has
a `company_score` column, so the 0.5 default branch is unreachable. -/
def scoreStakeholders (w : ScoringWeights) (t : StakeholderTable)
    (cs : List ScoredCompany) : List ScoredStakeholder :=
  (normalizeStakeholderScores (t.rows.map (scoreStakeholderRow w t.hasDmp cs))).map
    (fun s => { s with stakeholder_score := s.stakeholder_score.map round2 })

/-- A row of the lead frame returned by `_generate_leads` (the dashboard
column allow-list; all of its columns exist in the merged frame). -/
structure Lead where
  lead_id : String
  name : String
  title : String
  company : String
  email : String
  linkedin_url : String
  lead_score : Option ℚ
  tier : Option String
  company_score : Option ℚ
  stakeholder_score : Option ℚ
  decision_making_power : Option ℚ
  industry : String
  company_size : String
  products : List String
  materials : List String
  target_markets : List String
  deriving DecidableEq

/-- One merged row of `pd.merge(stakeholders, companies[...], left_on='company',
right_on='name')`, with `lead_score = round(0.6*company_score +
0.4*stakeholder_score, 2)` (the stakeholder-side `company_score` column;
`tier` and `lead_id` are filled later). -/
def mkPreLead (s : ScoredStakeholder) (c : ScoredCompany) : Lead :=
  { lead_id := "", name := s.name, title := s.title, company := s.company,
    email := s.email, linkedin_url := s.linkedin_url,
    lead_score :=
      match s.company_score, s.stakeholder_score with
      | some cv, some sv => some (round2 (cv * (6/10) + sv * (4/10)))
      | _, _ => none,
    tier := none,
    company_score := s.company_score, stakeholder_score := s.stakeholder_score,
    decision_making_power := s.decision_making_power,
    industry := c.industry, company_size := c.company_size,
    products := c.products, materials := c.materials,
    target_markets := c.target_markets }

/-- The descending comparison used when ordering by `lead_score` with
`na_position='last'`: may `a` be placed before `b`? -/
def leadGe (a b : Option ℚ) : Bool :=
  match a, b with
  | some x, some y => decide (y ≤ x)
  | some _, none => true
  | none, some _ => false
  | none, none => true

/-- Stable descending insertion by `lead_score`. -/
def insertLeadDesc (x : Lead) : List Lead → List Lead
  | [] => [x]
  | y :: ys => if leadGe x.lead_score y.lead_score then x :: y :: ys else y :: insertLeadDesc x ys

/-- `sort_values('lead_score', ascending=False)`, modelled as a stable
descending sort with missing scores last.  (pandas argsorts with numpy's
default `quicksort`, whose order among equal keys is an implementation
detail; the model fixes one deterministic order.) -/
def sortLeadsDesc : List Lead → List Lead
  | [] => []
  | x :: xs => insertLeadDesc x (sortLeadsDesc xs)

/-- `pd.cut(lead_score, bins=[0, 0.3, 0.6, 1.0], labels=['Tier 3', 'Tier 2',
'Tier 1'])`: right-closed bins, anything outside them (including 0.0 and
`NaN`) gets no label. -/
def tierOf : Option ℚ → Option String
  | none => none
  | some x =>
    if 0 < x ∧ x ≤ 3/10 then some "Tier 3"
    else if 3/10 < x ∧ x ≤ 6/10 then some "Tier 2"
    else if 6/10 < x ∧ x ≤ 1 then some "Tier 1"
    else none

/-- Python `f"{i:04d}"` for the positive ids used here. -/
def pad4 (n : ℕ) : String :=
  if n < 10 then "000" ++ toString n
  else if n < 100 then "00" ++ toString n
  else if n < 1000 then "0" ++ toString n
  else toString n

/-- `leads_df['lead_id'] = [f"LEAD-{i:04d}" for i in range(1, len+1)]`. -/
def assignIds : ℕ → List Lead → List Lead
  | _, [] => []
  | i, l :: ls => { l with lead_id := "LEAD-" ++ pad4 i } :: assignIds (i + 1) ls

/-- `LeadScorer._generate_leads`: inner-join stakeholders to companies on
name (left order preserved, one row per matching company row), blend the
scores, sort descending, bin into tiers, assign positional ids. -/
def generateLeads (cs : List ScoredCompany) (ss : List ScoredStakeholder) : List Lead :=
  let merged := ss.flatMap (fun s => (cs.filter (fun c => c.name = s.company)).map (mkPreLead s))
  let sorted := sortLeadsDesc merged
  let tiered := sorted.map (fun l => { l with tier := tierOf l.lead_score })
  assignIds 1 tiered

/-- `LeadScorer.score_leads` (without the CSV export). -/
def scoreLeads (w : ScoringWeights) (ct : CompanyTable) (st : StakeholderTable) :
    List ScoredCompany × List ScoredStakeholder × List Lead :=
  let sc := scoreCompanies w ct
  let ss := scoreStakeholders w st sc
  (sc, ss, generateLeads sc ss)

/-- The ordered industry keyword dictionary of `CompanyEnricher.__init__`. -/
def industryKeywordDict : List (String × List String) :=
  [("signage", ["sign", "signage", "display", "billboard", "banner", "exhibit"]),
   ("graphics", ["graphic", "print", "printing", "visual", "design", "creative"]),
   ("manufacturing", ["manufacturing", "production", "fabrication", "industrial"]),
   ("materials", ["material", "vinyl", "pvc", "film", "plastic", "composite"]),
   ("outdoor", ["outdoor", "exterior", "weather", "durable", "resistant"]),
   ("advertising", ["advertising", "marketing", "promotion", "media", "brand"])]

/-- Number of keywords of one category found in the text. -/
def keywordScore (text : String) (kws : List String) : ℕ :=
  (kws.filter (fun k => containsSub text k)).length

/-- Python `max(d, key=d.get)` over an association list in insertion
order: the first key attaining the maximal value. -/
def maxByFirst (l : List (String × ℕ)) : Option String :=
  match l with
  | [] => none
  | p :: ps => some ((ps.foldl (fun best q => if best.2 < q.2 then q else best) p).1)

/-- `CompanyEnricher._extract_industry`. -/
def extractIndustry (c : Company) : String :=
  if c.industry ≠ "" then c.industry
  else
    match maxByFirst ((industryKeywordDict.map
        (fun p => (p.1, keywordScore (pyLower c.description ++ " " ++ pyLower c.website) p.2))).filter
        (fun p => 0 < p.2)) with
    | some nm => nm
    | none => "Graphics and Signage"

/-- `CompanyEnricher._extract_company_size`. -/
def extractCompanySize (c : Company) : String :=
  match c.employees with
  | some e =>
    if e < 10 then "Micro"
    else if e < 50 then "Small"
    else if e < 250 then "Medium"
    else "Large"
  | none =>
    match c.annual_revenue with
    | some r =>
      if r < 1000000 then "Micro"
      else if r < 10000000 then "Small"
      else if r < 50000000 then "Medium"
      else "Large"
    | none =>
      let d := pyLower c.description
      if containsAny d ["fortune 500", "global", "multinational", "enterprise", "corporation"] then "Large"
      else if containsAny d ["medium", "growing", "established"] then "Medium"
      else if containsAny d ["small", "startup", "boutique", "family"] then "Small"
      else "Medium"

/-- Python `str.title()` on the lowercase space-separated keyword
constants it is applied to here. -/
def pyTitleWord (w : String) : String :=
  match w.toList with
  | [] => ""
  | ch :: rest => String.mk (ch.toUpper :: rest.map Char.toLower)

/-- Python `str.title()` for space-separated words. -/
def pyTitle (s : String) : String :=
  String.intercalate " " ((s.splitOn " ").map pyTitleWord)

/-- Product keywords of `_extract_products`. -/
def productKeywordList : List String :=
  ["signs", "banners", "displays", "billboards", "posters", "graphics",
   "wraps", "vehicle wraps", "wall graphics", "window graphics", "floor graphics",
   "trade show displays", "exhibits", "digital signage", "led signs",
   "channel letters", "monument signs", "wayfinding", "architectural signage"]

/-- `CompanyEnricher._extract_products`. -/
def extractProducts (c : Company) : List String :=
  let d := pyLower c.description
  let found := (productKeywordList.filter (fun k => containsSub d k)).map pyTitle
  if found ≠ [] then found
  else
    let industry := pyLower c.industry
    if containsSub industry "sign" || containsSub industry "display" then
      ["Signs", "Displays"]
    else if containsSub industry "print" || containsSub industry "graphic" then
      ["Graphics", "Printed Materials"]
    else if containsSub industry "advertising" || containsSub industry "marketing" then
      ["Advertising Displays", "Marketing Materials"]
    else ["Graphics Products", "Signage Solutions"]

/-- Material keywords of `_extract_materials`. -/
def materialKeywordList : List String :=
  ["vinyl", "pvc", "acrylic", "aluminum", "metal", "plastic", "composite",
   "fabric", "canvas", "film", "adhesive", "foam", "wood", "glass", "led",
   "polycarbonate", "coroplast", "dibond", "alucobond", "sintra"]

/-- `CompanyEnricher._extract_materials`. -/
def extractMaterials (c : Company) : List String :=
  let d := pyLower c.description
  let found := (materialKeywordList.filter (fun k => containsSub d k)).map pyTitle
  if found ≠ [] then found
  else
    let industry := pyLower c.industry
    if containsSub industry "sign" || c.products.any (fun p => containsSub (pyLower p) "sign") then
      ["Vinyl", "Aluminum", "Acrylic"]
    else if containsSub industry "print" || c.products.any (fun p => containsSub (pyLower p) "print") then
      ["Vinyl", "Film", "Paper"]
    else if containsSub industry "display" || c.products.any (fun p => containsSub (pyLower p) "display") then
      ["Fabric", "Vinyl", "Aluminum"]
    else ["Vinyl", "Plastic", "Composite"]

/-- The ordered target-market keyword dictionary of `_extract_target_markets`. -/
def marketKeywordDict : List (String × List String) :=
  [("Retail", ["retail", "store", "shop", "mall", "boutique"]),
   ("Corporate", ["corporate", "office", "business", "enterprise", "company"]),
   ("Education", ["education", "school", "university", "college", "campus"]),
   ("Healthcare", ["healthcare", "hospital", "medical", "clinic", "doctor"]),
   ("Hospitality", ["hospitality", "hotel", "restaurant", "resort", "cafe"]),
   ("Transportation", ["transportation", "airport", "transit", "bus", "train"]),
   ("Government", ["government", "municipal", "city", "state", "federal"]),
   ("Events", ["event", "exhibition", "trade show", "conference", "convention"]),
   ("Outdoor Advertising", ["outdoor", "billboard", "street", "roadside", "highway"])]

/-- `CompanyEnricher._extract_target_markets`. -/
def extractTargetMarkets (c : Company) : List String :=
  let d := pyLower c.description
  let found := (marketKeywordDict.filter (fun p => p.2.any (fun k => containsSub d k))).map (·.1)
  if found ≠ [] then found
  else
    let industry := pyLower c.industry
    if containsSub industry "retail" || containsSub industry "store" then
      ["Retail", "Corporate"]
    else if containsSub industry "advertising" || containsSub industry "marketing" then
      ["Corporate", "Retail", "Outdoor Advertising"]
    else if containsSub industry "exhibit" || containsSub industry "display" then
      ["Events", "Corporate", "Retail"]
    else ["Corporate", "Retail", "Events"]

/-- `CompanyEnricher._calculate_relevance_score`. -/
def calcRelevanceScore (c : Company) : ℚ :=
  let industry := pyLower c.industry
  let s1 : ℚ :=
    if containsSub industry "sign" || containsSub industry "display" then 1
    else if containsSub industry "print" || containsSub industry "graphic" then 8/10
    else if containsSub industry "advertising" || containsSub industry "marketing" then 6/10
    else if containsSub industry "manufacturing" || containsSub industry "production" then 1/2
    else 0
  let pCount : ℕ :=
    (c.products.filter (fun p =>
      containsAny (pyLower p) ["signs", "banners", "displays", "billboards", "wraps", "graphics"])).length
  let s2 : ℚ := min ((pCount : ℚ) * (2/10)) 1
  let mCount : ℕ :=
    (c.materials.filter (fun m =>
      containsAny (pyLower m) ["vinyl", "pvc", "plastic", "film", "composite"])).length
  let s3 : ℚ := min ((mCount : ℚ) * (2/10)) 1
  let kCount : ℕ :=
    (c.target_markets.filter (fun m =>
      containsAny (pyLower m) ["outdoor advertising", "retail", "events", "transportation"])).length
  let s4 : ℚ := min ((kCount : ℚ) * (1/4)) 1
  let size := pyLower c.company_size
  let s5 : ℚ :=
    if size = "large" then 1
    else if size = "medium" then 8/10
    else if size = "small" then 1/2
    else 3/10
  round2 ((s1 + s2 + s3 + s4 + s5) / 5)

/-- `enriched_df['industry'] = enriched_df.apply(self._extract_industry, axis=1)`
(first of the per-record column assignments of
`CompanyEnricher.enrich_companies`, lines 85-99; the `id` assignment is
positional bookkeeping and the Clearbit branch is disabled because
`CLEARBIT_API_KEY` is not defined in `src/src/config/config.py` and the
spec places network enrichment out of scope). -/
def fillIndustry (c : Company) : Company := { c with industry := extractIndustry c }

/-- `enriched_df['company_size'] = enriched_df.apply(self._extract_company_size, axis=1)`. -/
def fillSize (c : Company) : Company := { c with company_size := extractCompanySize c }

/-- `enriched_df['products'] = enriched_df.apply(self._extract_products, axis=1)`. -/
def fillProducts (c : Company) : Company := { c with products := extractProducts c }

/-- `enriched_df['materials'] = enriched_df.apply(self._extract_materials, axis=1)`. -/
def fillMaterials (c : Company) : Company := { c with materials := extractMaterials c }

/-- `enriched_df['target_markets'] = enriched_df.apply(self._extract_target_markets, axis=1)`. -/
def fillMarkets (c : Company) : Company := { c with target_markets := extractTargetMarkets c }

/-- `enriched_df['relevance_score'] = enriched_df.apply(self._calculate_relevance_score, axis=1)`. -/
def fillRelevance (c : Company) : Company :=
  { c with relevance_score := some (calcRelevanceScore c) }

/-- The column assignments applied in sequence, each extractor seeing the
earlier assignments (exactly the statement order of `enrich_companies`). -/
def enrichAttrs (c : Company) : Company :=
  fillRelevance (fillMarkets (fillMaterials (fillProducts (fillSize (fillIndustry c)))))

/-- The decision-power derivation as worded by the specification: executive
titles (CEO, Chief *, President, Owner, Founder, Managing Director) score
1.0; Director, VP or Head titles 0.8; Manager, Lead, Senior or Principal
titles 0.6; any other non-blank title 0.4; a blank or unknown title 0.5
(tiered keyword match, highest tier first). -/
def specDecisionPower (title : String) : ℚ :=
  if title = "" then 1/2
  else
    let t := pyLower title
    if containsAny t ["ceo", "chief", "president", "owner", "founder", "managing director"] then 1
    else if containsAny t ["director", "vp", "head"] then 8/10
    else if containsAny t ["manager", "lead", "senior", "principal"] then 6/10
    else 4/10

/-- A concrete weight configuration, used to instantiate the externally
configured `SCORING_WEIGHTS` in witnesses and counterexamples. -/
def wA : ScoringWeights :=
  { company_size := 3/10, industry_relevance := 4/10, product_fit := 3/10,
    decision_making_power := 6/10 }

/-- The all-zero weight configuration (also admissible: the spec only says
the weights are externally configured and need not sum to 1). -/
def wZero : ScoringWeights :=
  { company_size := 0, industry_relevance := 0, product_fit := 0,
    decision_making_power := 0 }

/-- Concrete company fixture (the spec's "Acme" scenario). -/
def acmeC : Company :=
  { name := "Acme", description := "", website := "", industry := "Signage",
    company_size := "Large", employees := none, annual_revenue := none,
    products := ["Banners"], materials := ["Vinyl"], target_markets := [],
    relevance_score := some (9/10) }

/-- Concrete stakeholder fixture (the spec's "Jo" scenario). -/
def joS : Stakeholder :=
  { name := "Jo", title := "CEO", company := "Acme", email := "",
    linkedin_url := "", decision_making_power := none }

/-- A stakeholder row that carries a `decision_making_power` value. -/
def jo9S : Stakeholder := { joS with decision_making_power := some (9/10) }

/-- A stakeholder row with no `decision_making_power` value (a `NaN` cell
in a present column). -/
def boS : Stakeholder :=
  { name := "Bo", title := "COO", company := "Acme", email := "",
    linkedin_url := "", decision_making_power := none }

/-- C4 failing input: no products, five relevant materials. -/
def cFiveMaterials : Company :=
  { name := "M", description := "", website := "", industry := "Other",
    company_size := "", employees := none, annual_revenue := none,
    products := [],
    materials := ["vinyl", "pvc", "plastic", "film", "composite"],
    target_markets := [], relevance_score := none }

/-- C6 counterexample input: non-empty `company_size` and `products` that
extraction overwrites. -/
def cFilled : Company :=
  { name := "X", description := "", website := "", industry := "Signage",
    company_size := "Small", employees := some 300, annual_revenue := none,
    products := ["Custom Widgets"], materials := ["Titanium"],
    target_markets := ["Aerospace"], relevance_score := none }

/-- A scored-company row with a given name and company score (all other
columns blank), for exercising the stakeholder join directly. -/
def mkScored (nm : String) (sc : ℚ) : ScoredCompany :=
  { name := nm, industry := "", company_size := "", products := [],
    materials := [], target_markets := [], relevance_score := none,
    size_score := 0, industry_score := 0, product_fit_score := 0,
    company_score := sc }

/-- C7 scenario: a scored-company batch with scores 0.2, 0.4, 0.6. -/
def csABC : List ScoredCompany :=
  [mkScored "A" (2/10), mkScored "B" (4/10), mkScored "C" (6/10)]

/-- C7 scenario: a stakeholder whose company matches no company row. -/
def sNowhere : Stakeholder :=
  { name := "Jo", title := "CEO", company := "Nonexistent", email := "",
    linkedin_url := "", decision_making_power := some 1 }

/-- The scored row produced for `sNowhere` against `csABC`. -/
def rNowhere : ScoredStakeholder :=
  { name := "Jo", title := "CEO", company := "Nonexistent", email := "",
    linkedin_url := "", decision_making_power := some 1,
    company_score := some (2/5), stakeholder_score := some 1 }

/-- The lead row produced for `joS` at `acmeC` under the weights `wA`
(the spec's end-to-end scenario: every score 1.0, Tier 1). -/
def leadJo : Lead :=
  { lead_id := "LEAD-0001", name := "Jo", title := "CEO", company := "Acme",
    email := "", linkedin_url := "", lead_score := some 1,
    tier := some "Tier 1", company_score := some 1, stakeholder_score := some 1,
    decision_making_power := some 1, industry := "Signage",
    company_size := "Large", products := ["Banners"], materials := ["Vinyl"],
    target_markets := [] }

lemma containsSub_of_sub {t p q : String} (hpq : p.toList <:+: q.toList)
    (h : containsSub t q = true) : containsSub t p = true := by
  unfold containsSub at h ⊢
  exact decide_eq_true (hpq.trans (of_decide_eq_true h))

lemma calcSizeScore_bounds (c : Company) :
    1/5 ≤ calcSizeScore c ∧ calcSizeScore c ≤ 1 := by
  simp only [calcSizeScore]
  repeat' split
  all_goals norm_num

lemma calcIndustryScore_bounds (c : Company) :
    1/5 ≤ calcIndustryScore c ∧ calcIndustryScore c ≤ 1 := by
  simp only [calcIndustryScore]
  repeat' split
  all_goals norm_num

lemma calcDecisionPower_bounds (s : Stakeholder) :
    0 ≤ calcDecisionPower s ∧ calcDecisionPower s ≤ 1 := by
  simp only [calcDecisionPower]
  repeat' split
  all_goals norm_num

lemma le_productLoop (l : List String) : ∀ s : ℚ, s ≤ productLoop s l := by
  induction l with
  | nil => intro s; simp [productLoop]
  | cons p ps ih =>
    intro s
    simp only [productLoop]
    split
    · split
      · linarith
      · have := ih (s + 1/10); linarith
    · exact ih s

lemma le_materialLoop (l : List String) : ∀ s : ℚ, s ≤ materialLoop s l := by
  induction l with
  | nil => intro s; simp [materialLoop]
  | cons m ms ih =>
    intro s
    simp only [materialLoop]
    split
    · split
      · linarith
      · have := ih (s + 1/10); linarith
    · exact ih s

lemma calcProductFit_bounds (c : Company) :
    1/2 ≤ calcProductFit c ∧ calcProductFit c ≤ 1 := by
  unfold calcProductFit
  refine ⟨le_min ?_ (by norm_num), min_le_right _ _⟩
  have h1 := le_productLoop c.products (1/2)
  have h2 := le_materialLoop c.materials (productLoop (1/2) c.products)
  linarith

lemma ratFloor_eq (q : ℚ) : Rat.floor q = ⌊q⌋ := by
  rw [Rat.floor_def', Rat.floor_def]

lemma roundHalfEven_nonneg {q : ℚ} (h : 0 ≤ q) : 0 ≤ roundHalfEven q := by
  simp only [roundHalfEven, ratFloor_eq]
  have hf : (0:ℤ) ≤ ⌊q⌋ := Int.le_floor.mpr (by exact_mod_cast h)
  repeat' split
  all_goals omega

lemma roundHalfEven_le {q : ℚ} {n : ℤ} (h : q ≤ (n:ℚ)) : roundHalfEven q ≤ n := by
  simp only [roundHalfEven, ratFloor_eq]
  have hfn : ⌊q⌋ ≤ n := by
    have h2 := Int.floor_le_floor h
    simpa using h2
  have hfq : (⌊q⌋ : ℚ) ≤ q := Int.floor_le q
  split
  · exact hfn
  · split
    · next h1 h2 =>
      have hx : (⌊q⌋ : ℚ) < (n : ℚ) := by
        push_neg at h1
        linarith
      have : ⌊q⌋ < n := by exact_mod_cast hx
      omega
    · next h1 h2 =>
      have hr : q - (⌊q⌋:ℚ) = 1/2 := le_antisymm (not_lt.mp h2) (not_lt.mp h1)
      have hx : (⌊q⌋ : ℚ) < (n : ℚ) := by linarith
      have : ⌊q⌋ < n := by exact_mod_cast hx
      split <;> omega

lemma round2_bounds {q : ℚ} (h0 : 0 ≤ q) (h1 : q ≤ 1) :
    0 ≤ round2 q ∧ round2 q ≤ 1 := by
  unfold round2
  constructor
  · have hr := roundHalfEven_nonneg (by positivity : (0:ℚ) ≤ q * 100)
    have : (0:ℚ) ≤ (roundHalfEven (q * 100) : ℚ) := by exact_mod_cast hr
    linarith
  · have hr : roundHalfEven (q * 100) ≤ (100:ℤ) := by
      apply roundHalfEven_le
      push_cast
      linarith
    rw [div_le_one (by norm_num)]
    exact_mod_cast hr

lemma maxQ_eq_none_iff {l : List ℚ} : maxQ l = none ↔ l = [] := by
  cases l with
  | nil => simp [maxQ]
  | cons x xs =>
    simp only [maxQ]
    cases h : maxQ xs <;> simp

lemma maxQ_mem {l : List ℚ} {m : ℚ} (h : maxQ l = some m) : m ∈ l := by
  induction l generalizing m with
  | nil => simp [maxQ] at h
  | cons x xs ih =>
    simp only [maxQ] at h
    cases hx : maxQ xs with
    | none =>
      rw [hx] at h
      simp only [Option.some.injEq] at h
      simp [← h]
    | some m' =>
      rw [hx] at h
      simp only [Option.some.injEq] at h
      rcases max_choice x m' with hc | hc
      · rw [← h, hc]; exact List.mem_cons_self x xs
      · rw [← h, hc]; exact List.mem_cons_of_mem _ (ih hx)

lemma le_maxQ {l : List ℚ} {x m : ℚ} (hx : x ∈ l) (h : maxQ l = some m) : x ≤ m := by
  induction l generalizing m with
  | nil => simp at hx
  | cons y ys ih =>
    simp only [maxQ] at h
    cases hy : maxQ ys with
    | none =>
      rw [hy] at h
      simp only [Option.some.injEq] at h
      have hys : ys = [] := maxQ_eq_none_iff.mp hy
      subst hys
      simp at hx
      rw [hx, ← h]
    | some m' =>
      rw [hy] at h
      simp only [Option.some.injEq] at h
      rcases List.mem_cons.mp hx with rfl | hmem
      · rw [← h]; exact le_max_left _ _
      · calc x ≤ m' := ih hmem hy
          _ ≤ max y m' := le_max_right _ _
          _ = m := h

lemma le_omax {l : List (Option ℚ)} {x m : ℚ} (hx : some x ∈ l) (h : omax l = some m) :
    x ≤ m :=
  le_maxQ (List.mem_filterMap.mpr ⟨some x, hx, rfl⟩) h

lemma omax_ne_none {l : List (Option ℚ)} {x : ℚ} (hx : some x ∈ l) (h : omax l = none) :
    False := by
  unfold omax at h
  rw [maxQ_eq_none_iff] at h
  have hmem : x ∈ l.filterMap id := List.mem_filterMap.mpr ⟨some x, hx, rfl⟩
  rw [h] at hmem
  simp at hmem

lemma insertAsc_perm (x : ℚ) (l : List ℚ) : List.Perm (insertAsc x l) (x :: l) := by
  induction l with
  | nil => simp [insertAsc]
  | cons y ys ih =>
    simp only [insertAsc]
    split
    · exact List.Perm.refl _
    · exact (List.Perm.cons y ih).trans (List.Perm.swap x y ys)

lemma sortAsc_perm (l : List ℚ) : List.Perm (sortAsc l) l := by
  induction l with
  | nil => simp [sortAsc]
  | cons x xs ih =>
    exact (insertAsc_perm x (sortAsc xs)).trans (List.Perm.cons x ih)

lemma getD_mem_of_lt {l : List ℚ} {i : ℕ} (h : i < l.length) : l.getD i 0 ∈ l := by
  induction l generalizing i with
  | nil => simp at h
  | cons x xs ih =>
    cases i with
    | zero => simp
    | succ n =>
      simp only [List.getD_cons_succ]
      exact List.mem_cons_of_mem _ (ih (by simpa using h))

lemma pandasMedian_bounds {l : List ℚ} {lo hi : ℚ}
    (hb : ∀ x ∈ l, lo ≤ x ∧ x ≤ hi) {m : ℚ}
    (h : pandasMedian l = some m) : lo ≤ m ∧ m ≤ hi := by
  unfold pandasMedian at h
  split at h
  · exact absurd h (by simp)
  · next hne =>
    have hlen : (sortAsc l).length = l.length := (sortAsc_perm l).length_eq
    have hpos : 0 < l.length := List.length_pos.mpr hne
    have hmem : ∀ i, i < l.length → (sortAsc l).getD i 0 ∈ l := fun i hi =>
      (sortAsc_perm l).mem_iff.mp (getD_mem_of_lt (by omega))
    split at h
    · simp only [Option.some.injEq] at h
      have := hb _ (hmem (l.length / 2) (by omega))
      rw [← h]
      exact this
    · simp only [Option.some.injEq] at h
      have h1 := hb _ (hmem (l.length / 2 - 1) (by omega))
      have h2 := hb _ (hmem (l.length / 2) (by omega))
      constructor
      · rw [← h]; linarith [h1.1, h2.1]
      · rw [← h]; linarith [h1.2, h2.2]

lemma pandasMedian_isSome {l : List ℚ} (h : l ≠ []) : ∃ m, pandasMedian l = some m := by
  unfold pandasMedian
  rw [if_neg h]
  split
  · exact ⟨_, rfl⟩
  · exact ⟨_, rfl⟩

lemma preScoreCompany_bounds {w : ScoringWeights}
    (hw1 : 0 ≤ w.company_size) (hw2 : 0 ≤ w.industry_relevance)
    (hw3 : 0 ≤ w.product_fit) (c : Company) :
    (1/5 ≤ (preScoreCompany w c).size_score ∧ (preScoreCompany w c).size_score ≤ 1) ∧
    (1/5 ≤ (preScoreCompany w c).industry_score ∧ (preScoreCompany w c).industry_score ≤ 1) ∧
    (1/2 ≤ (preScoreCompany w c).product_fit_score ∧ (preScoreCompany w c).product_fit_score ≤ 1) ∧
    0 ≤ (preScoreCompany w c).company_score := by
  have h1 := calcSizeScore_bounds c
  have h2 := calcIndustryScore_bounds c
  have h3 := calcProductFit_bounds c
  simp only [preScoreCompany]
  refine ⟨h1, h2, h3, ?_⟩
  have a1 : 0 ≤ calcSizeScore c := by linarith [h1.1]
  have a2 : 0 ≤ calcIndustryScore c := by linarith [h2.1]
  have a3 : 0 ≤ calcProductFit c := by linarith [h3.1]
  exact add_nonneg (add_nonneg (mul_nonneg a1 hw1) (mul_nonneg a2 hw2)) (mul_nonneg a3 hw3)

lemma normalizeCompanyScores_bounds {pre : List ScoredCompany}
    (hnn : ∀ b ∈ pre, 0 ≤ b.company_score) :
    ∀ c ∈ normalizeCompanyScores pre,
      (0 ≤ c.company_score ∧ c.company_score ≤ 1) ∧
      ∃ b ∈ pre, c.size_score = b.size_score ∧ c.industry_score = b.industry_score ∧
        c.product_fit_score = b.product_fit_score := by
  intro c hc
  unfold normalizeCompanyScores at hc
  cases hmax : maxQ (pre.map (·.company_score)) with
  | none =>
    rw [hmax] at hc
    have h0 : pre.map (·.company_score) = [] := maxQ_eq_none_iff.mp hmax
    have hpre : pre = [] := by simpa using h0
    rw [hpre] at hc
    simp at hc
  | some m =>
    rw [hmax] at hc
    dsimp only at hc
    by_cases hm : 0 < m
    · rw [if_pos hm] at hc
      rcases List.mem_map.mp hc with ⟨b, hbmem, rfl⟩
      have hble : b.company_score ≤ m :=
        le_maxQ (List.mem_map_of_mem (fun x => x.company_score) hbmem) hmax
      have hbnn := hnn b hbmem
      refine ⟨⟨div_nonneg hbnn (le_of_lt hm), ?_⟩, ⟨b, hbmem, rfl, rfl, rfl⟩⟩
      rw [div_le_one hm]
      exact hble
    · rw [if_neg hm] at hc
      have hble : c.company_score ≤ m :=
        le_maxQ (List.mem_map_of_mem (fun x => x.company_score) hc) hmax
      have hcnn := hnn c hc
      exact ⟨⟨hcnn, by linarith [not_lt.mp hm]⟩, ⟨c, hc, rfl, rfl, rfl⟩⟩

lemma scoreCompanies_bounds {w : ScoringWeights}
    (hw1 : 0 ≤ w.company_size) (hw2 : 0 ≤ w.industry_relevance)
    (hw3 : 0 ≤ w.product_fit) (t : CompanyTable) :
    ∀ c ∈ scoreCompanies w t,
      (1/5 ≤ c.size_score ∧ c.size_score ≤ 1) ∧
      (1/5 ≤ c.industry_score ∧ c.industry_score ≤ 1) ∧
      (1/2 ≤ c.product_fit_score ∧ c.product_fit_score ≤ 1) ∧
      (0 ≤ c.company_score ∧ c.company_score ≤ 1) := by
  intro c hc
  unfold scoreCompanies at hc
  rcases List.mem_map.mp hc with ⟨b, hb, rfl⟩
  have hnn : ∀ p ∈ (ensureRelevance t).map (preScoreCompany w), 0 ≤ p.company_score := by
    intro p hp
    rcases List.mem_map.mp hp with ⟨c0, _, rfl⟩
    exact (preScoreCompany_bounds hw1 hw2 hw3 c0).2.2.2
  rcases normalizeCompanyScores_bounds hnn b hb with ⟨hbs, ⟨p, hpmem, e1, e2, e3⟩⟩
  rcases List.mem_map.mp hpmem with ⟨c0, _, rfl⟩
  have hc0 := preScoreCompany_bounds hw1 hw2 hw3 c0
  have hrd := round2_bounds hbs.1 hbs.2
  refine ⟨?_, ?_, ?_, hrd⟩
  · show 1/5 ≤ b.size_score ∧ b.size_score ≤ 1
    rw [e1]; exact hc0.1
  · show 1/5 ≤ b.industry_score ∧ b.industry_score ≤ 1
    rw [e2]; exact hc0.2.1
  · show 1/2 ≤ b.product_fit_score ∧ b.product_fit_score ≤ 1
    rw [e3]; exact hc0.2.2.1

lemma assignedCompanyScore_bounds {cs : List ScoredCompany}
    (hcs : ∀ x ∈ cs, 0 ≤ x.company_score ∧ x.company_score ≤ 1) (s : Stakeholder) :
    ∀ v, assignedCompanyScore cs s = some v → 0 ≤ v ∧ v ≤ 1 := by
  intro v h
  unfold assignedCompanyScore at h
  cases hl : lookupCompanyScore cs s.company with
  | some u =>
    rw [hl] at h
    simp only [Option.some.injEq] at h
    subst h
    unfold lookupCompanyScore at hl
    rcases Option.map_eq_some'.mp hl with ⟨row, hrow, rfl⟩
    have hmem : row ∈ cs := List.mem_reverse.mp (List.mem_of_find?_eq_some hrow)
    exact hcs row hmem
  | none =>
    rw [hl] at h
    apply pandasMedian_bounds ?_ h
    intro x hx
    rcases List.mem_map.mp hx with ⟨r, hr, rfl⟩
    exact hcs r hr

lemma scoreStakeholderRow_dmp (w : ScoringWeights) (hasDmp : Bool)
    (cs : List ScoredCompany) (s : Stakeholder) :
    (scoreStakeholderRow w hasDmp cs s).decision_making_power = stakeholderDmp hasDmp s := rfl

lemma scoreStakeholderRow_csc (w : ScoringWeights) (hasDmp : Bool)
    (cs : List ScoredCompany) (s : Stakeholder) :
    (scoreStakeholderRow w hasDmp cs s).company_score = assignedCompanyScore cs s := rfl

lemma scoreStakeholderRow_ss (w : ScoringWeights) (hasDmp : Bool)
    (cs : List ScoredCompany) (s : Stakeholder) :
    (scoreStakeholderRow w hasDmp cs s).stakeholder_score =
      match stakeholderDmp hasDmp s, assignedCompanyScore cs s with
      | some dv, some cv =>
        some (dv * w.decision_making_power + cv * (1 - w.decision_making_power))
      | _, _ => none := rfl

lemma stakeholderDmp_bounds {hasDmp : Bool} {s : Stakeholder}
    (hs : ∀ v, s.decision_making_power = some v → 0 ≤ v ∧ v ≤ 1) :
    ∀ v, stakeholderDmp hasDmp s = some v → 0 ≤ v ∧ v ≤ 1 := by
  intro v h
  unfold stakeholderDmp at h
  cases hasDmp with
  | true => exact hs v (by simpa using h)
  | false =>
    simp only [Bool.false_eq_true, if_false, Option.some.injEq] at h
    rw [← h]
    exact calcDecisionPower_bounds s

lemma scoreStakeholderRow_bounds {w : ScoringWeights}
    (hwd0 : 0 ≤ w.decision_making_power) (hwd1 : w.decision_making_power ≤ 1)
    {hasDmp : Bool} {cs : List ScoredCompany}
    (hcs : ∀ x ∈ cs, 0 ≤ x.company_score ∧ x.company_score ≤ 1) (s : Stakeholder)
    (hs : ∀ v, s.decision_making_power = some v → 0 ≤ v ∧ v ≤ 1) :
    (∀ v, (scoreStakeholderRow w hasDmp cs s).decision_making_power = some v → 0 ≤ v ∧ v ≤ 1) ∧
    (∀ v, (scoreStakeholderRow w hasDmp cs s).company_score = some v → 0 ≤ v ∧ v ≤ 1) ∧
    (∀ v, (scoreStakeholderRow w hasDmp cs s).stakeholder_score = some v → 0 ≤ v ∧ v ≤ 1) := by
  have hd := @stakeholderDmp_bounds hasDmp s hs
  have hc := assignedCompanyScore_bounds hcs s
  refine ⟨?_, ?_, ?_⟩
  · rw [scoreStakeholderRow_dmp]; exact hd
  · rw [scoreStakeholderRow_csc]; exact hc
  · rw [scoreStakeholderRow_ss]
    intro v hv
    cases hdv : stakeholderDmp hasDmp s with
    | none => rw [hdv] at hv; simp at hv
    | some dv =>
      cases hcv : assignedCompanyScore cs s with
      | none => rw [hdv, hcv] at hv; simp at hv
      | some cv =>
        rw [hdv, hcv] at hv
        simp only [Option.some.injEq] at hv
        have hdb := hd dv hdv
        have hcb := hc cv hcv
        have e1 : dv * w.decision_making_power ≤ 1 * w.decision_making_power :=
          mul_le_mul_of_nonneg_right hdb.2 hwd0
        have e2 : cv * (1 - w.decision_making_power) ≤ 1 * (1 - w.decision_making_power) :=
          mul_le_mul_of_nonneg_right hcb.2 (by linarith)
        have e3 : 0 ≤ dv * w.decision_making_power := mul_nonneg hdb.1 hwd0
        have e4 : 0 ≤ cv * (1 - w.decision_making_power) := mul_nonneg hcb.1 (by linarith)
        constructor
        · rw [← hv]; linarith
        · rw [← hv]; linarith

lemma normalizeStakeholderScores_bounds {pre : List ScoredStakeholder}
    (hb : ∀ p ∈ pre, ∀ v, p.stakeholder_score = some v → 0 ≤ v ∧ v ≤ 1) :
    ∀ r ∈ normalizeStakeholderScores pre,
      (∃ p ∈ pre, r.decision_making_power = p.decision_making_power ∧
        r.company_score = p.company_score) ∧
      (∀ v, r.stakeholder_score = some v → 0 ≤ v ∧ v ≤ 1) := by
  intro r hr
  unfold normalizeStakeholderScores at hr
  cases hmax : omax (pre.map (·.stakeholder_score)) with
  | none =>
    rw [hmax] at hr
    exact ⟨⟨r, hr, rfl, rfl⟩, hb r hr⟩
  | some m =>
    rw [hmax] at hr
    dsimp only at hr
    by_cases hm : 0 < m
    · rw [if_pos hm] at hr
      rcases List.mem_map.mp hr with ⟨p, hpmem, rfl⟩
      refine ⟨⟨p, hpmem, rfl, rfl⟩, ?_⟩
      intro v hv
      simp only at hv
      rcases Option.map_eq_some'.mp hv with ⟨u, hu, rfl⟩
      have hub := hb p hpmem u hu
      have hule : u ≤ m := by
        apply le_omax ?_ hmax
        rw [← hu]
        exact List.mem_map_of_mem (fun x => x.stakeholder_score) hpmem
      exact ⟨div_nonneg hub.1 (le_of_lt hm), by rw [div_le_one hm]; exact hule⟩
    · rw [if_neg hm] at hr
      exact ⟨⟨r, hr, rfl, rfl⟩, hb r hr⟩

lemma scoreStakeholders_bounds {w : ScoringWeights}
    (hwd0 : 0 ≤ w.decision_making_power) (hwd1 : w.decision_making_power ≤ 1)
    (t : StakeholderTable) {cs : List ScoredCompany}
    (hcs : ∀ x ∈ cs, 0 ≤ x.company_score ∧ x.company_score ≤ 1)
    (hrows : ∀ s ∈ t.rows, ∀ v, s.decision_making_power = some v → 0 ≤ v ∧ v ≤ 1) :
    ∀ r ∈ scoreStakeholders w t cs,
      (∀ v, r.decision_making_power = some v → 0 ≤ v ∧ v ≤ 1) ∧
      (∀ v, r.company_score = some v → 0 ≤ v ∧ v ≤ 1) ∧
      (∀ v, r.stakeholder_score = some v → 0 ≤ v ∧ v ≤ 1) := by
  intro r hr
  unfold scoreStakeholders at hr
  rcases List.mem_map.mp hr with ⟨b, hb, rfl⟩
  have hpre : ∀ p ∈ t.rows.map (scoreStakeholderRow w t.hasDmp cs),
      (∀ v, p.decision_making_power = some v → 0 ≤ v ∧ v ≤ 1) ∧
      (∀ v, p.company_score = some v → 0 ≤ v ∧ v ≤ 1) ∧
      (∀ v, p.stakeholder_score = some v → 0 ≤ v ∧ v ≤ 1) := by
    intro p hp
    rcases List.mem_map.mp hp with ⟨s, hsmem, rfl⟩
    exact scoreStakeholderRow_bounds hwd0 hwd1 hcs s (hrows s hsmem)
  rcases normalizeStakeholderScores_bounds
      (fun p hp => (hpre p hp).2.2) b hb with ⟨⟨p, hpmem, ed, ec⟩, hss⟩
  refine ⟨?_, ?_, ?_⟩
  · show ∀ v, b.decision_making_power = some v → 0 ≤ v ∧ v ≤ 1
    rw [ed]; exact (hpre p hpmem).1
  · show ∀ v, b.company_score = some v → 0 ≤ v ∧ v ≤ 1
    rw [ec]; exact (hpre p hpmem).2.1
  · intro v hv
    simp only at hv
    rcases Option.map_eq_some'.mp hv with ⟨u, hu, rfl⟩
    have hub := hss u hu
    exact round2_bounds hub.1 hub.2

lemma insertLeadDesc_perm (x : Lead) (l : List Lead) :
    List.Perm (insertLeadDesc x l) (x :: l) := by
  induction l with
  | nil => simp [insertLeadDesc]
  | cons y ys ih =>
    simp only [insertLeadDesc]
    split
    · exact List.Perm.refl _
    · exact (List.Perm.cons y ih).trans (List.Perm.swap x y ys)

lemma sortLeadsDesc_perm (l : List Lead) : List.Perm (sortLeadsDesc l) l := by
  induction l with
  | nil => simp [sortLeadsDesc]
  | cons x xs ih =>
    exact (insertLeadDesc_perm x (sortLeadsDesc xs)).trans (List.Perm.cons x ih)

lemma mem_assignIds {x : Lead} {l : List Lead} :
    ∀ {i : ℕ}, x ∈ assignIds i l →
      ∃ y ∈ l, ∃ j, x = { y with lead_id := "LEAD-" ++ pad4 j } := by
  induction l with
  | nil => intro i h; simp [assignIds] at h
  | cons a as ih =>
    intro i h
    simp only [assignIds] at h
    rcases List.mem_cons.mp h with h1 | h2
    · exact ⟨a, List.mem_cons_self _ _, i, h1⟩
    · rcases ih h2 with ⟨y, hy, j, e⟩
      exact ⟨y, List.mem_cons_of_mem _ hy, j, e⟩

lemma mkPreLead_leadScore (s : ScoredStakeholder) (c : ScoredCompany) :
    (mkPreLead s c).lead_score =
      match s.company_score, s.stakeholder_score with
      | some cv, some sv => some (round2 (cv * (6/10) + sv * (4/10)))
      | _, _ => none := rfl

lemma generateLeads_mem {cs : List ScoredCompany} {ss : List ScoredStakeholder}
    {l : Lead} (h : l ∈ generateLeads cs ss) :
    ∃ s ∈ ss, ∃ c ∈ cs, c.name = s.company ∧
      l.lead_score = (mkPreLead s c).lead_score ∧
      l.tier = tierOf l.lead_score ∧
      l.company_score = s.company_score ∧
      l.stakeholder_score = s.stakeholder_score ∧
      l.decision_making_power = s.decision_making_power := by
  unfold generateLeads at h
  rcases mem_assignIds h with ⟨y, hy, j, rfl⟩
  rcases List.mem_map.mp hy with ⟨z, hz, rfl⟩
  have hz2 : z ∈ ss.flatMap
      (fun s => (cs.filter (fun c => c.name = s.company)).map (mkPreLead s)) :=
    (sortLeadsDesc_perm _).mem_iff.mp hz
  rcases List.mem_flatMap.mp hz2 with ⟨s, hsmem, hzin⟩
  rcases List.mem_map.mp hzin with ⟨c, hcf, rfl⟩
  have hcmem := (List.mem_filter.mp hcf).1
  have hname : c.name = s.company := by
    have := (List.mem_filter.mp hcf).2
    simpa using this
  exact ⟨s, hsmem, c, hcmem, hname, rfl, rfl, rfl, rfl, rfl⟩

lemma generateLeads_bounds {cs : List ScoredCompany} {ss : List ScoredStakeholder}
    (hs : ∀ r ∈ ss, (∀ v, r.company_score = some v → 0 ≤ v ∧ v ≤ 1) ∧
          (∀ v, r.stakeholder_score = some v → 0 ≤ v ∧ v ≤ 1)) :
    ∀ l ∈ generateLeads cs ss, ∀ v, l.lead_score = some v → 0 ≤ v ∧ v ≤ 1 := by
  intro l hl v hv
  rcases generateLeads_mem hl with ⟨s, hsmem, c, _, _, hls, _, _, _, _⟩
  rw [hls, mkPreLead_leadScore] at hv
  cases hcv : s.company_score with
  | none => rw [hcv] at hv; simp at hv
  | some cv =>
    cases hsv : s.stakeholder_score with
    | none => rw [hcv, hsv] at hv; simp at hv
    | some sv =>
      rw [hcv, hsv] at hv
      simp only [Option.some.injEq] at hv
      have hcb := (hs s hsmem).1 cv hcv
      have hsb := (hs s hsmem).2 sv hsv
      have h0 : 0 ≤ cv * (6/10) + sv * (4/10) := by nlinarith [hcb.1, hsb.1]
      have h1 : cv * (6/10) + sv * (4/10) ≤ 1 := by nlinarith [hcb.2, hsb.2]
      rw [← hv]
      exact round2_bounds h0 h1

lemma scoreCompanies_empty (w : ScoringWeights) (hre : Bool) :
    scoreCompanies w ⟨hre, []⟩ = [] := by
  cases hre <;> rfl

lemma generateLeads_nil_left (ss : List ScoredStakeholder) :
    generateLeads [] ss = [] := by
  unfold generateLeads
  have h : ss.flatMap
      (fun s => (([] : List ScoredCompany).filter (fun c => c.name = s.company)).map (mkPreLead s)) = [] := by
    induction ss with
    | nil => rfl
    | cons a as ih => simp only [List.flatMap_cons, List.filter_nil, List.map_nil, List.nil_append]; exact ih
  rw [h]
  rfl

lemma round2_one : round2 1 = 1 := of_decide_eq_true (by with_unfolding_all rfl)

lemma tierOf_t1 {x : ℚ} (h1 : 6/10 < x) (h2 : x ≤ 1) : tierOf (some x) = some "Tier 1" := by
  simp only [tierOf]
  rw [if_neg (by push_neg; intro h; linarith), if_neg (by push_neg; intro h; linarith),
    if_pos ⟨by linarith, h2⟩]

lemma tierOf_t2 {x : ℚ} (h1 : 3/10 < x) (h2 : x ≤ 6/10) : tierOf (some x) = some "Tier 2" := by
  simp only [tierOf]
  rw [if_neg (by push_neg; intro h; linarith), if_pos ⟨h1, h2⟩]

lemma tierOf_t3 {x : ℚ} (h1 : 0 < x) (h2 : x ≤ 3/10) : tierOf (some x) = some "Tier 3" := by
  simp only [tierOf]
  rw [if_pos ⟨h1, h2⟩]

lemma tierOf_zero : tierOf (some 0) = none := by norm_num [tierOf]

lemma scoreLeads_fst (w : ScoringWeights) (ct : CompanyTable) (st : StakeholderTable) :
    (scoreLeads w ct st).1 = scoreCompanies w ct := rfl

lemma scoreLeads_snd (w : ScoringWeights) (ct : CompanyTable) (st : StakeholderTable) :
    (scoreLeads w ct st).2.1 = scoreStakeholders w st (scoreCompanies w ct) := rfl

lemma scoreLeads_leads (w : ScoringWeights) (ct : CompanyTable) (st : StakeholderTable) :
    (scoreLeads w ct st).2.2 =
      generateLeads (scoreCompanies w ct) (scoreStakeholders w st (scoreCompanies w ct)) := rfl

lemma scoreStakeholderRow_ss_isSome (w : ScoringWeights) (hasDmp : Bool)
    (cs : List ScoredCompany) (s : Stakeholder) :
    (scoreStakeholderRow w hasDmp cs s).stakeholder_score.isSome =
      ((stakeholderDmp hasDmp s).isSome && (assignedCompanyScore cs s).isSome) := by
  rw [scoreStakeholderRow_ss]
  cases stakeholderDmp hasDmp s <;> cases assignedCompanyScore cs s <;> rfl

lemma normalizeStakeholderScores_get (pre : List ScoredStakeholder) (i : ℕ) :
    ∃ g : ScoredStakeholder → ScoredStakeholder,
      (normalizeStakeholderScores pre)[i]? = pre[i]?.map g ∧
      ∀ p, (g p).decision_making_power = p.decision_making_power ∧
        (g p).company_score = p.company_score ∧
        (g p).stakeholder_score.isSome = p.stakeholder_score.isSome := by
  unfold normalizeStakeholderScores
  cases hmax : omax (pre.map (·.stakeholder_score)) with
  | none => exact ⟨id, by simp, fun p => ⟨rfl, rfl, rfl⟩⟩
  | some m =>
    dsimp only
    by_cases hm : 0 < m
    · rw [if_pos hm]
      refine ⟨fun s => { s with stakeholder_score := s.stakeholder_score.map (· / m) },
        List.getElem?_map _ _ _, fun p => ⟨rfl, rfl, by simp⟩⟩
    · rw [if_neg hm]
      exact ⟨id, by simp, fun p => ⟨rfl, rfl, rfl⟩⟩

lemma scoreStakeholders_get (w : ScoringWeights) (t : StakeholderTable)
    (cs : List ScoredCompany) {i : ℕ} {s : Stakeholder} (h : t.rows[i]? = some s) :
    ∃ r, (scoreStakeholders w t cs)[i]? = some r ∧
      r.decision_making_power = stakeholderDmp t.hasDmp s ∧
      r.company_score = assignedCompanyScore cs s ∧
      r.stakeholder_score.isSome =
        ((stakeholderDmp t.hasDmp s).isSome && (assignedCompanyScore cs s).isSome) := by
  unfold scoreStakeholders
  rcases normalizeStakeholderScores_get (t.rows.map (scoreStakeholderRow w t.hasDmp cs)) i
    with ⟨g, hg, hprops⟩
  rw [List.getElem?_map, hg, List.getElem?_map, h]
  simp only [Option.map_some']
  refine ⟨_, rfl, ?_, ?_, ?_⟩
  · show (g (scoreStakeholderRow w t.hasDmp cs s)).decision_making_power = _
    rw [(hprops _).1, scoreStakeholderRow_dmp]
  · show (g (scoreStakeholderRow w t.hasDmp cs s)).company_score = _
    rw [(hprops _).2.1, scoreStakeholderRow_csc]
  · show ((g (scoreStakeholderRow w t.hasDmp cs s)).stakeholder_score.map round2).isSome = _
    rw [Option.isSome_map', (hprops _).2.2, scoreStakeholderRow_ss_isSome]

lemma vice_implies_president {t : String}
    (h : containsSub t "vice president" = true) : containsSub t "president" = true :=
  containsSub_of_sub (by decide) h

lemma calcDecisionPower_eq_spec (s : Stakeholder) :
    calcDecisionPower s = specDecisionPower s.title := by
  unfold calcDecisionPower specDecisionPower execTitleKeys directorTitleKeys managerTitleKeys
  by_cases h : s.title = ""
  · rw [if_pos h, if_pos h]
  · rw [if_neg h, if_neg h]
    by_cases hexec :
        containsAny (pyLower s.title)
          ["ceo", "chief", "president", "owner", "founder", "managing director"] = true
    · rw [if_pos hexec, if_pos hexec]
    · rw [if_neg hexec, if_neg hexec]
      have hvice : containsSub (pyLower s.title) "vice president" = false := by
        rcases hv : containsSub (pyLower s.title) "vice president" with _ | _
        · rfl
        · exfalso
          apply hexec
          have hp := vice_implies_president hv
          simp only [containsAny, List.any_cons, List.any_nil, Bool.or_eq_true]
          tauto
      have hcond : containsAny (pyLower s.title) ["director", "vp", "vice president", "head"] =
          containsAny (pyLower s.title) ["director", "vp", "head"] := by
        simp only [containsAny, List.any_cons, List.any_nil, hvice, Bool.false_or]
      rw [hcond]

lemma assignedCompanyScore_isSome {cs : List ScoredCompany} (hne : cs ≠ [])
    (s : Stakeholder) : (assignedCompanyScore cs s).isSome = true := by
  unfold assignedCompanyScore
  cases hl : lookupCompanyScore cs s.company with
  | some v => rfl
  | none =>
    rcases pandasMedian_isSome (l := cs.map (·.company_score)) (by simpa using hne) with ⟨m, hm⟩
    simp [hm]

/-- C2, amended: `tier` is the `pd.cut` binning of `lead_score` with
right-closed bins — `(0.6, 1]` gives "Tier 1", `(0.3, 0.6]` gives
"Tier 2", `(0, 0.3]` gives "Tier 3" — so every produced lead whose
`lead_score` lies in `(0, 1]` carries exactly one of the three labels;
but a lead with `lead_score` exactly `0.0`, or with a missing
(`NaN`) `lead_score`, carries no tier label at all (the bins are
left-open at 0 and `pd.cut` maps values outside every bin to `NaN`). -/
theorem C2_tier_binning (w : ScoringWeights) (ct : CompanyTable) (st : StakeholderTable) :
    ∀ l ∈ (scoreLeads w ct st).2.2,
      (l.lead_score = none → l.tier = none) ∧
      ∀ x : ℚ, l.lead_score = some x →
        (6/10 < x → x ≤ 1 → l.tier = some "Tier 1") ∧
        (3/10 < x → x ≤ 6/10 → l.tier = some "Tier 2") ∧
        (0 < x → x ≤ 3/10 → l.tier = some "Tier 3") ∧
        (0 < x → x ≤ 1 →
          l.tier = some "Tier 1" ∨ l.tier = some "Tier 2" ∨ l.tier = some "Tier 3") ∧
        (x = 0 → l.tier = none) := by
  intro l hl
  rw [scoreLeads_leads] at hl
  rcases generateLeads_mem hl with ⟨s, _, c, _, _, _, htier, _, _, _⟩
  constructor
  · intro h
    rw [htier, h]
    rfl
  · intro x hx
    rw [htier, hx]
    refine ⟨fun h1 h2 => tierOf_t1 h1 h2, fun h1 h2 => tierOf_t2 h1 h2,
      fun h1 h2 => tierOf_t3 h1 h2, ?_, ?_⟩
    · intro h0 h1
      by_cases ha : x ≤ 3/10
      · exact Or.inr (Or.inr (tierOf_t3 h0 ha))
      · by_cases hb : x ≤ 6/10
        · exact Or.inr (Or.inl (tierOf_t2 (by linarith [not_le.mp ha]) hb))
        · exact Or.inl (tierOf_t1 (by linarith [not_le.mp hb]) h1)
    · intro h0
      rw [h0]
      exact tierOf_zero

/-- C2, counterexample to the claim as stated: produced leads do not
always carry one of the three tier labels.  Under the all-zero weight
configuration the single produced lead has `lead_score` exactly `0.0` and
its tier is `NaN` (none of the three labels); and a lead whose
`stakeholder_score` is `NaN` (its row was missing `decision_making_power`
in a present column) has a `NaN` `lead_score` and likewise no tier. -/
theorem C2_counterexample :
    ((scoreLeads wZero ⟨true, [acmeC]⟩ ⟨false, [joS]⟩).2.2.map
        (fun l => (l.lead_score, l.tier)) = [(some 0, none)]) ∧
    ((scoreLeads wA ⟨true, [acmeC]⟩ ⟨true, [jo9S, boS]⟩).2.2.map
        (fun l => (l.lead_score, l.tier)) = [(some 1, some "Tier 1"), (none, none)]) :=
  ⟨of_decide_eq_true (by with_unfolding_all rfl),
   of_decide_eq_true (by with_unfolding_all rfl)⟩

/-- C2 witness: the amended theorem applied to the concrete Acme/Jo run,
whose single lead has `lead_score` 1 and is assigned "Tier 1". -/
theorem C2_witness : leadJo.tier = some "Tier 1" :=
  (((C2_tier_binning wA ⟨true, [acmeC]⟩ ⟨false, [joS]⟩ leadJo
      (of_decide_eq_true (by with_unfolding_all rfl))).2 1 rfl).1)
    (by norm_num) (by norm_num)

/-- C4: evaluation of `_calculate_product_fit` at the failing input — a
company with no relevant products and five relevant materials.  The code
comment ("0.1 points per relevant material, up to 0.3") and the claim
promise at most 0.5 + 0.3 = 0.8, but the loop's break threshold is 1.0,
so the materials contribute +0.5 and the result is 1.0. -/
theorem C4_materials_exceed_cap :
    cFiveMaterials.products = [] ∧
    cFiveMaterials.materials.length = 5 ∧
    calcProductFit cFiveMaterials = 1 :=
  ⟨rfl, rfl, of_decide_eq_true (by with_unfolding_all rfl)⟩

/-- C5, counterexample to the claim as stated: title derivation does not
happen for "every stakeholder whose decision_making_power is not already
supplied".  The code checks only whether the whole column exists: the
stakeholder `boS` supplies no value (its cell is `NaN` in a present
column) and its title "COO" would derive 0.4 under the claim's tiers, yet
the scored row's `decision_making_power` remains null — nothing is
derived from the title. -/
theorem C5_counterexample :
    boS.decision_making_power = none ∧
    specDecisionPower boS.title = 2/5 ∧
    ((scoreStakeholders wA ⟨true, [boS]⟩ csABC).map
      (fun r => r.decision_making_power)) = [none] :=
  ⟨rfl,
   of_decide_eq_true (by with_unfolding_all rfl),
   of_decide_eq_true (by with_unfolding_all rfl)⟩

/-- C5, amended: title derivation is column-granular.  When the
stakeholder table has no `decision_making_power` column, every row's
value is derived from its title exactly as the specification words it —
executive titles 1.0, Director/VP/Head titles 0.8,
Manager/Lead/Senior/Principal titles 0.6, other non-blank titles 0.4,
blank titles 0.5 (tiered keyword match, highest tier first).  When the
column is present, each row's supplied value — including a missing
(`NaN`) one — passes through unchanged and is never derived from the
title. -/
theorem C5_column_level_derivation (w : ScoringWeights) (t : StakeholderTable)
    (cs : List ScoredCompany) {i : ℕ} {s : Stakeholder} (hrow : t.rows[i]? = some s) :
    ∃ r, (scoreStakeholders w t cs)[i]? = some r ∧
      (t.hasDmp = false → r.decision_making_power = some (specDecisionPower s.title)) ∧
      (t.hasDmp = true → r.decision_making_power = s.decision_making_power) := by
  rcases scoreStakeholders_get w t cs hrow with ⟨r, hr, hd, _, _⟩
  refine ⟨r, hr, ?_, ?_⟩
  · intro hno
    rw [hd, hno]
    simp [stakeholderDmp, calcDecisionPower_eq_spec]
  · intro hyes
    rw [hd, hyes]
    rfl

/-- C5 witness: a table without the column derives the CEO title to
decision power 1.0. -/
theorem C5_witness :
    (∃ r, (scoreStakeholders wA ⟨false, [joS]⟩ [])[0]? = some r ∧
      ((⟨false, [joS]⟩ : StakeholderTable).hasDmp = false →
        r.decision_making_power = some (specDecisionPower joS.title)) ∧
      ((⟨false, [joS]⟩ : StakeholderTable).hasDmp = true →
        r.decision_making_power = joS.decision_making_power)) ∧
    specDecisionPower joS.title = 1 :=
  ⟨C5_column_level_derivation wA ⟨false, [joS]⟩ [] (i := 0) (s := joS) rfl,
   of_decide_eq_true (by with_unfolding_all rfl)⟩

/-- C7: a stakeholder whose `company` matches no scored company receives
the batch median of all company scores as its `company_score` — a real
value, not zero and not an error. -/
theorem C7_join_miss_gets_median (w : ScoringWeights) (t : StakeholderTable)
    (cs : List ScoredCompany) (hne : cs ≠ [])
    {i : ℕ} {s : Stakeholder} (hrow : t.rows[i]? = some s)
    (hmiss : ∀ c ∈ cs, c.name ≠ s.company) :
    ∃ r, (scoreStakeholders w t cs)[i]? = some r ∧
      r.company_score = pandasMedian (cs.map (·.company_score)) ∧
      r.company_score ≠ none := by
  rcases scoreStakeholders_get w t cs hrow with ⟨r, hr, _, hc, _⟩
  have hfind : cs.reverse.find? (fun c => c.name = s.company) = none := by
    apply List.find?_eq_none.mpr
    intro x hx
    simpa using hmiss x (List.mem_reverse.mp hx)
  have hassigned : assignedCompanyScore cs s = pandasMedian (cs.map (·.company_score)) := by
    unfold assignedCompanyScore lookupCompanyScore
    rw [hfind]
    rfl
  rcases pandasMedian_isSome (l := cs.map (·.company_score)) (by simpa using hne) with ⟨m, hm⟩
  refine ⟨r, hr, by rw [hc, hassigned], ?_⟩
  rw [hc, hassigned, hm]
  simp

/-- C7 witness: the spec scenario — an unmatched stakeholder against
company scores [0.2, 0.4, 0.6] receives the median 0.4. -/
theorem C7_witness :
    (∃ r, (scoreStakeholders wA ⟨true, [sNowhere]⟩ csABC)[0]? = some r ∧
      r.company_score = pandasMedian (csABC.map (·.company_score)) ∧
      r.company_score ≠ none) ∧
    pandasMedian (csABC.map (·.company_score)) = some (2/5) :=
  ⟨C7_join_miss_gets_median wA ⟨true, [sNowhere]⟩ csABC
      (of_decide_eq_true (by with_unfolding_all rfl)) (i := 0) (s := sNowhere) rfl
      (of_decide_eq_true (by with_unfolding_all rfl)),
   of_decide_eq_true (by with_unfolding_all rfl)⟩

/-- C8, counterexample to the claim as stated: missing per-record inputs
are defaulted only at column granularity.  With the
`decision_making_power` column present and one row's value missing, that
row's `stakeholder_score` is `NaN` (a null score) in the output — the
neutral default is not substituted — and the null propagates into the
lead's `lead_score`. -/
theorem C8_counterexample :
    ((scoreLeads wA ⟨true, [acmeC]⟩ ⟨true, [jo9S, boS]⟩).2.1.map
        (fun r => (r.decision_making_power, r.stakeholder_score))
      = [(some (9/10), some 1), (none, none)]) ∧
    ((scoreLeads wA ⟨true, [acmeC]⟩ ⟨true, [jo9S, boS]⟩).2.2.map
        (fun l => l.lead_score) = [some 1, none]) :=
  ⟨of_decide_eq_true (by with_unfolding_all rfl),
   of_decide_eq_true (by with_unfolding_all rfl)⟩

/-- C8, amended: the neutral-default substitution happens at column
granularity.  When the stakeholder table has no `decision_making_power`
column at all, every record gets a title-derived value (0.5 for a blank
title), and — given a nonempty company batch — its joined
`company_score` and its `stakeholder_score` are real values, never null
and never an error.  (When the column exists, a record-level missing
value instead propagates as a null score; see the counterexample.) -/
theorem C8_column_level_default (w : ScoringWeights) (t : StakeholderTable)
    (cs : List ScoredCompany) (hno : t.hasDmp = false) (hne : cs ≠ [])
    {i : ℕ} {s : Stakeholder} (hrow : t.rows[i]? = some s) :
    ∃ r, (scoreStakeholders w t cs)[i]? = some r ∧
      r.decision_making_power = some (calcDecisionPower s) ∧
      (s.title = "" → r.decision_making_power = some (1/2)) ∧
      r.company_score.isSome = true ∧
      r.stakeholder_score.isSome = true := by
  rcases scoreStakeholders_get w t cs hrow with ⟨r, hr, hd, hc, hs⟩
  rw [hno] at hd hs
  have hdm : stakeholderDmp false s = some (calcDecisionPower s) := rfl
  have hcs : (assignedCompanyScore cs s).isSome = true := assignedCompanyScore_isSome hne s
  refine ⟨r, hr, ?_, ?_, ?_, ?_⟩
  · rw [hd, hdm]
  · intro ht
    rw [hd, hdm]
    simp [calcDecisionPower, ht]
  · rw [hc]
    exact hcs
  · rw [hs, hdm, hcs]
    rfl

/-- C8 witness: a one-row table without the `decision_making_power`
column, scored against a nonempty company batch. -/
theorem C8_witness :
    ∃ r, (scoreStakeholders wA ⟨false, [joS]⟩ csABC)[0]? = some r ∧
      r.decision_making_power = some (calcDecisionPower joS) ∧
      (joS.title = "" → r.decision_making_power = some (1/2)) ∧
      r.company_score.isSome = true ∧
      r.stakeholder_score.isSome = true :=
  C8_column_level_default wA ⟨false, [joS]⟩ csABC rfl
    (of_decide_eq_true (by with_unfolding_all rfl)) (i := 0) (s := joS) rfl

/-- C9: a run with zero company records and/or zero stakeholder records
produces an empty lead table (no exception is possible: the pipeline is a
total function of the input tables). -/
theorem C9_empty_batch_empty_output (w : ScoringWeights) (hre hdm : Bool)
    (ct : CompanyTable) (st : StakeholderTable) :
    (scoreLeads w ⟨hre, []⟩ st).2.2 = [] ∧ (scoreLeads w ct ⟨hdm, []⟩).2.2 = [] := by
  constructor
  · rw [scoreLeads_leads, scoreCompanies_empty, generateLeads_nil_left]
  · rw [scoreLeads_leads]
    rfl

lemma preScoreCompany_pos {w : ScoringWeights}
    (hw1 : 0 ≤ w.company_size) (hw2 : 0 ≤ w.industry_relevance) (hw3 : 0 ≤ w.product_fit)
    (hpos : 0 < w.company_size ∨ 0 < w.industry_relevance ∨ 0 < w.product_fit)
    (c : Company) : 0 < (preScoreCompany w c).company_score := by
  have h1 := calcSizeScore_bounds c
  have h2 := calcIndustryScore_bounds c
  have h3 := calcProductFit_bounds c
  simp only [preScoreCompany]
  have e1 : 1/5 * w.company_size ≤ calcSizeScore c * w.company_size :=
    mul_le_mul_of_nonneg_right h1.1 hw1
  have e2 : 1/5 * w.industry_relevance ≤ calcIndustryScore c * w.industry_relevance :=
    mul_le_mul_of_nonneg_right h2.1 hw2
  have e3 : 1/2 * w.product_fit ≤ calcProductFit c * w.product_fit :=
    mul_le_mul_of_nonneg_right h3.1 hw3
  have f1 : 0 ≤ calcSizeScore c * w.company_size := by nlinarith
  have f2 : 0 ≤ calcIndustryScore c * w.industry_relevance := by nlinarith
  have f3 : 0 ≤ calcProductFit c * w.product_fit := by nlinarith
  rcases hpos with h | h | h
  · nlinarith
  · nlinarith
  · nlinarith

lemma ensureRelevance_ne_nil {t : CompanyTable} (hne : t.rows ≠ []) :
    ensureRelevance t ≠ [] := by
  unfold ensureRelevance
  split
  · exact hne
  · intro hmap
    exact hne (by simpa using hmap)

/-- C1: every derived score the pipeline produces — `size_score`,
`industry_score`, `product_fit_score`, `company_score`,
`decision_making_power`, `stakeholder_score` and `lead_score` — lies in
the closed interval [0, 1], for any input batch whose supplied
`decision_making_power` values respect the documented schema (numeric in
[0, 1]) and any nonnegative weight configuration with the
decision-making-power weight in [0, 1]. -/
theorem C1_scores_in_unit_interval (w : ScoringWeights)
    (hw1 : 0 ≤ w.company_size) (hw2 : 0 ≤ w.industry_relevance) (hw3 : 0 ≤ w.product_fit)
    (hwd0 : 0 ≤ w.decision_making_power) (hwd1 : w.decision_making_power ≤ 1)
    (ct : CompanyTable) (st : StakeholderTable)
    (hin : ∀ s ∈ st.rows, ∀ v : ℚ, s.decision_making_power = some v → 0 ≤ v ∧ v ≤ 1) :
    (∀ c ∈ (scoreLeads w ct st).1,
      (0 ≤ c.size_score ∧ c.size_score ≤ 1) ∧
      (0 ≤ c.industry_score ∧ c.industry_score ≤ 1) ∧
      (0 ≤ c.product_fit_score ∧ c.product_fit_score ≤ 1) ∧
      (0 ≤ c.company_score ∧ c.company_score ≤ 1)) ∧
    (∀ r ∈ (scoreLeads w ct st).2.1,
      (∀ v : ℚ, r.decision_making_power = some v → 0 ≤ v ∧ v ≤ 1) ∧
      (∀ v : ℚ, r.stakeholder_score = some v → 0 ≤ v ∧ v ≤ 1)) ∧
    (∀ l ∈ (scoreLeads w ct st).2.2,
      ∀ v : ℚ, l.lead_score = some v → 0 ≤ v ∧ v ≤ 1) := by
  have hsc := scoreCompanies_bounds hw1 hw2 hw3 ct
  have h01 : ∀ x ∈ scoreCompanies w ct, 0 ≤ x.company_score ∧ x.company_score ≤ 1 :=
    fun x hx => (hsc x hx).2.2.2
  have hss := scoreStakeholders_bounds hwd0 hwd1 st h01 hin
  refine ⟨?_, ?_, ?_⟩
  · intro c hc
    rw [scoreLeads_fst] at hc
    rcases hsc c hc with ⟨a, b, c', d⟩
    exact ⟨⟨by linarith [a.1], a.2⟩, ⟨by linarith [b.1], b.2⟩, ⟨by linarith [c'.1], c'.2⟩, d⟩
  · intro r hr
    rw [scoreLeads_snd] at hr
    exact ⟨(hss r hr).1, (hss r hr).2.2⟩
  · intro l hl
    rw [scoreLeads_leads] at hl
    exact generateLeads_bounds (fun r hr => ⟨(hss r hr).2.1, (hss r hr).2.2⟩) l hl

/-- C1 witness: the bounds theorem applied to the concrete Acme/Jo run
under the weights `wA`. -/
theorem C1_witness :
    (∀ c ∈ (scoreLeads wA ⟨true, [acmeC]⟩ ⟨false, [joS]⟩).1,
      (0 ≤ c.size_score ∧ c.size_score ≤ 1) ∧
      (0 ≤ c.industry_score ∧ c.industry_score ≤ 1) ∧
      (0 ≤ c.product_fit_score ∧ c.product_fit_score ≤ 1) ∧
      (0 ≤ c.company_score ∧ c.company_score ≤ 1)) ∧
    (∀ r ∈ (scoreLeads wA ⟨true, [acmeC]⟩ ⟨false, [joS]⟩).2.1,
      (∀ v : ℚ, r.decision_making_power = some v → 0 ≤ v ∧ v ≤ 1) ∧
      (∀ v : ℚ, r.stakeholder_score = some v → 0 ≤ v ∧ v ≤ 1)) ∧
    (∀ l ∈ (scoreLeads wA ⟨true, [acmeC]⟩ ⟨false, [joS]⟩).2.2,
      ∀ v : ℚ, l.lead_score = some v → 0 ≤ v ∧ v ≤ 1) :=
  C1_scores_in_unit_interval wA (by norm_num [wA]) (by norm_num [wA]) (by norm_num [wA])
    (by norm_num [wA]) (by norm_num [wA]) ⟨true, [acmeC]⟩ ⟨false, [joS]⟩
    (by
      intro s hs v hv
      rw [List.mem_singleton] at hs
      subst hs
      simp [joS] at hv)

/-- C3: for a nonempty company batch (and a weight configuration that is
nonnegative with at least one positive weight), the maximum
`company_score` in the output is exactly 1.0 and is attained by at least
one record: the weighted composite is divided by the batch maximum and
rounded, so the top company scores exactly 1.0 by construction. -/
theorem C3_max_company_score_is_one (w : ScoringWeights)
    (hw1 : 0 ≤ w.company_size) (hw2 : 0 ≤ w.industry_relevance) (hw3 : 0 ≤ w.product_fit)
    (hpos : 0 < w.company_size ∨ 0 < w.industry_relevance ∨ 0 < w.product_fit)
    (t : CompanyTable) (hne : t.rows ≠ []) :
    (∃ c ∈ scoreCompanies w t, c.company_score = 1) ∧
    (∀ c ∈ scoreCompanies w t, c.company_score ≤ 1) := by
  constructor
  · have hprene : (ensureRelevance t).map (preScoreCompany w) ≠ [] := by
      intro h
      exact ensureRelevance_ne_nil hne (by simpa using h)
    have hmeq : ((ensureRelevance t).map (preScoreCompany w)).map (·.company_score) ≠ [] := by
      simpa using hprene
    obtain ⟨m, hmax⟩ :
        ∃ m, maxQ (((ensureRelevance t).map (preScoreCompany w)).map (·.company_score)) = some m := by
      cases hq : maxQ (((ensureRelevance t).map (preScoreCompany w)).map (·.company_score)) with
      | none => exact absurd (maxQ_eq_none_iff.mp hq) hmeq
      | some m => exact ⟨m, rfl⟩
    rcases List.mem_map.mp (maxQ_mem hmax) with ⟨b, hbmem, hbm⟩
    have hmpos : 0 < m := by
      rcases List.mem_map.mp hbmem with ⟨c0, _, rfl⟩
      rw [← hbm]
      exact preScoreCompany_pos hw1 hw2 hw3 hpos c0
    have hdiv : normalizeCompanyScores ((ensureRelevance t).map (preScoreCompany w)) =
        ((ensureRelevance t).map (preScoreCompany w)).map
          (fun c => { c with company_score := c.company_score / m }) := by
      unfold normalizeCompanyScores
      rw [hmax]
      dsimp only
      rw [if_pos hmpos]
    have hmem1 : ({ b with company_score := b.company_score / m } : ScoredCompany) ∈
        normalizeCompanyScores ((ensureRelevance t).map (preScoreCompany w)) := by
      rw [hdiv]
      exact List.mem_map_of_mem _ hbmem
    have hmem2 : ({ b with company_score := round2 (b.company_score / m) } : ScoredCompany) ∈
        scoreCompanies w t := by
      unfold scoreCompanies
      exact List.mem_map_of_mem _ hmem1
    refine ⟨_, hmem2, ?_⟩
    show round2 (b.company_score / m) = 1
    have hb1 : b.company_score = m := hbm
    rw [hb1, div_self (ne_of_gt hmpos), round2_one]
  · intro c hc
    exact ((scoreCompanies_bounds hw1 hw2 hw3 t c hc).2.2.2).2

/-- C3 witness: the normalization theorem applied to a concrete
single-company batch under the weights `wA`. -/
theorem C3_witness :
    (∃ c ∈ scoreCompanies wA ⟨true, [acmeC]⟩, c.company_score = 1) ∧
    (∀ c ∈ scoreCompanies wA ⟨true, [acmeC]⟩, c.company_score ≤ 1) :=
  C3_max_company_score_is_one wA (by norm_num [wA]) (by norm_num [wA]) (by norm_num [wA])
    (Or.inl (by norm_num [wA])) ⟨true, [acmeC]⟩ (by simp)


lemma extractCompanySize_congr {c c' : Company}
    (h1 : c.employees = c'.employees) (h2 : c.annual_revenue = c'.annual_revenue)
    (h3 : c.description = c'.description) :
    extractCompanySize c = extractCompanySize c' := by
  unfold extractCompanySize
  rw [h1, h2, h3]

lemma extractProducts_congr {c c' : Company}
    (h1 : c.description = c'.description) (h2 : c.industry = c'.industry) :
    extractProducts c = extractProducts c' := by
  unfold extractProducts
  rw [h1, h2]

lemma extractMaterials_congr {c c' : Company}
    (h1 : c.description = c'.description) (h2 : c.industry = c'.industry)
    (h3 : c.products = c'.products) :
    extractMaterials c = extractMaterials c' := by
  unfold extractMaterials
  rw [h1, h2, h3]

lemma extractTargetMarkets_congr {c c' : Company}
    (h1 : c.description = c'.description) (h2 : c.industry = c'.industry) :
    extractTargetMarkets c = extractTargetMarkets c' := by
  unfold extractTargetMarkets
  rw [h1, h2]

lemma foldl_max_mem : ∀ (ps : List (String × ℕ)) (p : String × ℕ),
    ps.foldl (fun best q => if best.2 < q.2 then q else best) p ∈ p :: ps := by
  intro ps
  induction ps with
  | nil => intro p; simp
  | cons q qs ih =>
    intro p
    simp only [List.foldl_cons]
    rcases List.mem_cons.mp (ih (if p.2 < q.2 then q else p)) with h | h
    · rw [h]
      by_cases hpq : p.2 < q.2
      · rw [if_pos hpq]; simp
      · rw [if_neg hpq]; simp
    · exact List.mem_cons_of_mem _ (List.mem_cons_of_mem _ h)

lemma maxByFirst_mem {l : List (String × ℕ)} {nm : String} (h : maxByFirst l = some nm) :
    nm ∈ l.map (·.1) := by
  unfold maxByFirst at h
  cases l with
  | nil => simp at h
  | cons p ps =>
    simp only [Option.some.injEq] at h
    rw [← h]
    exact List.mem_map_of_mem _ (foldl_max_mem ps p)

lemma extractIndustry_ne_empty (c : Company) : extractIndustry c ≠ "" := by
  unfold extractIndustry
  split
  · next h => exact h
  · split
    · next nm hm =>
      have hmem := maxByFirst_mem hm
      rcases List.mem_map.mp hmem with ⟨pair, hpair, rfl⟩
      have hp2 := (List.mem_filter.mp hpair).1
      rcases List.mem_map.mp hp2 with ⟨q, hq, rfl⟩
      fin_cases hq <;> simp
    · simp

/-- C6, counterexample to the claim as stated: the attribute extractor is
not gap-filling on `company_size`, `products`, `materials` or
`target_markets` — it recomputes them from `description` /
`employees` / `annual_revenue` even when they are already non-empty.  A
record with `company_size = "Small"` (but 300 employees) and bespoke
products/materials/markets comes back with `company_size = "Large"` and
all three list fields replaced. -/
theorem C6_counterexample :
    cFilled.company_size = "Small" ∧ cFilled.products = ["Custom Widgets"] ∧
    (enrichAttrs cFilled).company_size = "Large" ∧
    (enrichAttrs cFilled).products = ["Signs", "Displays"] ∧
    (enrichAttrs cFilled).materials ≠ cFilled.materials ∧
    (enrichAttrs cFilled).target_markets ≠ cFilled.target_markets :=
  ⟨rfl, rfl,
   of_decide_eq_true (by with_unfolding_all rfl),
   of_decide_eq_true (by with_unfolding_all rfl),
   of_decide_eq_true (by with_unfolding_all rfl),
   of_decide_eq_true (by with_unfolding_all rfl)⟩

/-- C6, amended: extraction preserves only an existing non-empty
`industry`; `company_size`, `products`, `materials` and `target_markets`
are recomputed (possibly overwriting supplied values) from fields that
extraction never changes, so running the extractor twice yields exactly
the same values as running it once (idempotence in the sense
`f ∘ f = f` on all five attribute fields). -/
theorem C6_extraction_idempotent (c : Company) (hind : c.industry ≠ "") :
    (enrichAttrs c).industry = c.industry ∧
    (enrichAttrs (enrichAttrs c)).industry = (enrichAttrs c).industry ∧
    (enrichAttrs (enrichAttrs c)).company_size = (enrichAttrs c).company_size ∧
    (enrichAttrs (enrichAttrs c)).products = (enrichAttrs c).products ∧
    (enrichAttrs (enrichAttrs c)).materials = (enrichAttrs c).materials ∧
    (enrichAttrs (enrichAttrs c)).target_markets = (enrichAttrs c).target_markets := by
  have hI : ∀ x : Company, x.industry ≠ "" → extractIndustry x = x.industry := by
    intro x hx
    unfold extractIndustry
    rw [if_pos hx]
  have hindproj : ∀ x : Company, (enrichAttrs x).industry = extractIndustry x := by
    intro x
    simp [enrichAttrs, fillIndustry, fillSize, fillProducts, fillMaterials, fillMarkets,
      fillRelevance]
  have hdescproj : ∀ x : Company, (enrichAttrs x).description = x.description := by
    intro x
    simp [enrichAttrs, fillIndustry, fillSize, fillProducts, fillMaterials, fillMarkets,
      fillRelevance]
  have hempproj : ∀ x : Company, (enrichAttrs x).employees = x.employees := by
    intro x
    simp [enrichAttrs, fillIndustry, fillSize, fillProducts, fillMaterials, fillMarkets,
      fillRelevance]
  have hrevproj : ∀ x : Company, (enrichAttrs x).annual_revenue = x.annual_revenue := by
    intro x
    simp [enrichAttrs, fillIndustry, fillSize, fillProducts, fillMaterials, fillMarkets,
      fillRelevance]
  have h2 : (enrichAttrs c).industry ≠ "" := by
    rw [hindproj]
    exact extractIndustry_ne_empty c
  have hEI : extractIndustry (enrichAttrs c) = extractIndustry c := by
    rw [hI _ h2, hindproj]
  have hsizeproj : ∀ x : Company,
      (enrichAttrs x).company_size = extractCompanySize (fillIndustry x) := by
    intro x
    simp [enrichAttrs, fillSize, fillProducts, fillMaterials, fillMarkets, fillRelevance]
  have hprodproj : ∀ x : Company,
      (enrichAttrs x).products = extractProducts (fillSize (fillIndustry x)) := by
    intro x
    simp [enrichAttrs, fillProducts, fillMaterials, fillMarkets, fillRelevance]
  have hmatproj : ∀ x : Company,
      (enrichAttrs x).materials =
        extractMaterials (fillProducts (fillSize (fillIndustry x))) := by
    intro x
    simp [enrichAttrs, fillMaterials, fillMarkets, fillRelevance]
  have hmarkproj : ∀ x : Company,
      (enrichAttrs x).target_markets =
        extractTargetMarkets (fillMaterials (fillProducts (fillSize (fillIndustry x)))) := by
    intro x
    simp [enrichAttrs, fillMarkets, fillRelevance]
  have hprodeq : extractProducts (fillSize (fillIndustry (enrichAttrs c))) =
      extractProducts (fillSize (fillIndustry c)) := by
    apply extractProducts_congr
    · simp [fillSize, fillIndustry, hdescproj]
    · simp [fillSize, fillIndustry, hEI]
  refine ⟨?_, ?_, ?_, ?_, ?_, ?_⟩
  · rw [hindproj]
    exact hI c hind
  · rw [hindproj, hindproj, hEI]
  · rw [hsizeproj, hsizeproj]
    apply extractCompanySize_congr
    · simp [fillIndustry, hempproj]
    · simp [fillIndustry, hrevproj]
    · simp [fillIndustry, hdescproj]
  · rw [hprodproj, hprodproj]
    exact hprodeq
  · rw [hmatproj, hmatproj]
    apply extractMaterials_congr
    · simp [fillProducts, fillSize, fillIndustry, hdescproj]
    · simp [fillProducts, fillSize, fillIndustry, hEI]
    · simp only [fillProducts]
      exact hprodeq
  · rw [hmarkproj, hmarkproj]
    apply extractTargetMarkets_congr
    · simp [fillMaterials, fillProducts, fillSize, fillIndustry, hdescproj]
    · simp [fillMaterials, fillProducts, fillSize, fillIndustry, hEI]

/-- C6 witness: preservation and idempotence at the concrete record whose
other fields extraction overwrites. -/
theorem C6_witness :
    (enrichAttrs cFilled).industry = cFilled.industry ∧
    (enrichAttrs (enrichAttrs cFilled)).industry = (enrichAttrs cFilled).industry ∧
    (enrichAttrs (enrichAttrs cFilled)).company_size = (enrichAttrs cFilled).company_size ∧
    (enrichAttrs (enrichAttrs cFilled)).products = (enrichAttrs cFilled).products ∧
    (enrichAttrs (enrichAttrs cFilled)).materials = (enrichAttrs cFilled).materials ∧
    (enrichAttrs (enrichAttrs cFilled)).target_markets = (enrichAttrs cFilled).target_markets :=
  C6_extraction_idempotent cFilled (by decide)
